import Mathlib

/-!
Shallow embedding of `pcd.go` (package `pcd`, a podcast feed synchronizer)
and proofs about its contract.

Modelling conventions:
* Go strings are modelled as `List Char` (`Str`).
* Byte streams are `List Nat`, every element kept `< 256` by construction.
* `time.Time` values (episode dates) are modelled as `Int` timestamps;
  `time.Parse(rss.Layout, ·)` is an external collaborator and is passed in
  as a parameter `parseDate : Str → Option Int`.
* `gob` / `base64` are external library collaborators; they are modelled by
  executable serializers with the same shape (self-contained binary encoding
  of the episode list, then a printable base64 encoding of the bytes).
* Fallible I/O (request construction, transport, mkdir, create, write, open)
  is modelled by explicit oracles in an environment record, and `Sync`,
  `Load`, `Download` become pure functions from that environment and the
  receiver to a result record that also tracks resource bookkeeping
  (whether the HTTP response body was closed, what was written).
-/

abbrev Str := List Char

/-- Model of the Go struct `Episode` (Title, Date, URL, Length). -/
structure Episode where
  Title : Str
  Date : Int
  URL : Str
  Length : Int
deriving Repr, DecidableEq

/-- Model of the Go struct `Podcast`. -/
structure Podcast where
  ID : Int
  Name : Str
  Feed : Str
  Path : Str
  Username : Str
  Password : Str
  Episodes : List Episode
deriving Repr, DecidableEq

/-- Closed taxonomy of the package-level error sentinels of `pcd.go`. -/
inductive PcdError where
  | couldNotSync
  | requestFailed
  | accessDenied
  | filesystemError
  | parserIssue
  | encodeError
  | feedNotFound
  | couldNotDownload
  | couldNotReadFromCache
  | couldNotParseContent
deriving Repr, DecidableEq

/-! Section: Cache codec: model of `gob` encoding of `[]Episode`

The Go code delegates to `encoding/gob`. We model it by an executable
binary serializer for `List Episode`: variable-length (LEB128-style)
naturals, sign-prefixed integers, length-prefixed strings, and a
count-prefixed record list. Every emitted byte is `< 256`.
-/

/-- Variable-length encoding step, structurally recursive on a fuel bound
(`fuel ≥ n` always suffices, since `n` shrinks by a factor 128 each step). -/
def encodeNatFuel : Nat → Nat → List Nat
  | 0, n => [n % 128]
  | fuel + 1, n =>
    if n < 128 then [n] else (n % 128 + 128) :: encodeNatFuel fuel (n / 128)

/-- Variable-length encoding of a natural number into bytes `< 256`. -/
def encodeNat (n : Nat) : List Nat :=
  encodeNatFuel n n

/-- Decoder for `encodeNat`, returning the value and the remaining bytes. -/
def decodeNat : List Nat → Option (Nat × List Nat)
  | [] => none
  | b :: rest =>
    if b < 128 then some (b, rest)
    else
      match decodeNat rest with
      | some (m, rest1) => some (b - 128 + 128 * m, rest1)
      | none => none

theorem decodeNat_encodeNatFuel (fuel : Nat) :
    ∀ n, n ≤ fuel ∨ n < 128 → ∀ rest,
      decodeNat (encodeNatFuel fuel n ++ rest) = some (n, rest) := by
  induction fuel with
  | zero =>
    intro n hn rest
    have hn0 : n < 128 := by omega
    simp [encodeNatFuel, decodeNat, Nat.mod_eq_of_lt hn0, hn0]
  | succ fuel ih =>
    intro n hn rest
    rw [encodeNatFuel]
    by_cases h : n < 128
    · simp [h, decodeNat]
    · have hdiv : n / 128 < n := Nat.div_lt_self (by omega) (by omega)
      rw [if_neg h, List.cons_append]
      simp only [decodeNat]
      rw [if_neg (by omega : ¬ n % 128 + 128 < 128)]
      have hle : n / 128 ≤ fuel ∨ n / 128 < 128 := by omega
      simp only [ih (n / 128) hle rest]
      have hn2 : n % 128 + 128 - 128 + 128 * (n / 128) = n := by omega
      rw [hn2]

theorem decodeNat_encodeNat (n : Nat) (rest : List Nat) :
    decodeNat (encodeNat n ++ rest) = some (n, rest) :=
  decodeNat_encodeNatFuel n n (Or.inl le_rfl) rest

theorem mem_encodeNatFuel_lt (fuel : Nat) :
    ∀ n, ∀ b ∈ encodeNatFuel fuel n, b < 256 := by
  induction fuel with
  | zero =>
    intro n b hb
    simp only [encodeNatFuel, List.mem_singleton] at hb
    omega
  | succ fuel ih =>
    intro n b hb
    rw [encodeNatFuel] at hb
    by_cases h : n < 128
    · rw [if_pos h] at hb
      simp only [List.mem_singleton] at hb
      omega
    · rw [if_neg h] at hb
      rcases List.mem_cons.mp hb with hb | hb
      · omega
      · exact ih _ b hb

theorem mem_encodeNat_lt (n : Nat) : ∀ b ∈ encodeNat n, b < 256 :=
  mem_encodeNatFuel_lt n n

/-- Sign-prefixed integer encoding (one sign byte, then the magnitude). -/
def encodeInt (i : Int) : List Nat :=
  (if i < 0 then 1 else 0) :: encodeNat i.natAbs

/-- Decoder for `encodeInt`. -/
def decodeInt (l : List Nat) : Option (Int × List Nat) :=
  match l with
  | [] => none
  | 1 :: rest =>
    match decodeNat rest with
    | some (n, rest1) => some (-(n : Int), rest1)
    | none => none
  | _ :: rest =>
    match decodeNat rest with
    | some (n, rest1) => some ((n : Int), rest1)
    | none => none

theorem decodeInt_encodeInt (i : Int) (rest : List Nat) :
    decodeInt (encodeInt i ++ rest) = some (i, rest) := by
  by_cases h : i < 0
  · simp only [encodeInt, if_pos h, List.cons_append, decodeInt, decodeNat_encodeNat]
    have hi : -(i.natAbs : Int) = i := by omega
    rw [hi]
  · simp only [encodeInt, if_neg h, List.cons_append, decodeInt, decodeNat_encodeNat]
    have hi : ((i.natAbs : Nat) : Int) = i := by omega
    rw [hi]

theorem mem_encodeInt_lt (i : Int) : ∀ b ∈ encodeInt i, b < 256 := by
  unfold encodeInt
  intro b hb
  rcases List.mem_cons.mp hb with hb | hb
  · subst hb; split <;> omega
  · exact mem_encodeNat_lt _ b hb

/-- Encoding of a string: each character is encoded as its code point. -/
def encodeChars (cs : Str) : List Nat :=
  (cs.map (fun c => encodeNat c.toNat)).flatten

/-- Length-prefixed string encoding. -/
def encodeStr (s : Str) : List Nat :=
  encodeNat s.length ++ encodeChars s

/-- Decoder reading exactly `n` characters. -/
def decodeChars : Nat → List Nat → Option (Str × List Nat)
  | 0, l => some ([], l)
  | n + 1, l =>
    match decodeNat l with
    | some (v, l1) =>
      match decodeChars n l1 with
      | some (cs, l2) => some (Char.ofNat v :: cs, l2)
      | none => none
    | none => none

/-- Decoder for `encodeStr`. -/
def decodeStr (l : List Nat) : Option (Str × List Nat) :=
  match decodeNat l with
  | some (n, l1) => decodeChars n l1
  | none => none

theorem decodeChars_encodeChars (cs : Str) (rest : List Nat) :
    decodeChars cs.length (encodeChars cs ++ rest) = some (cs, rest) := by
  induction cs with
  | nil => simp [encodeChars, decodeChars]
  | cons c cs ih =>
    simp only [encodeChars, List.map_cons, List.flatten_cons, List.length_cons,
      List.append_assoc]
    simp only [decodeChars, decodeNat_encodeNat]
    rw [show (cs.map fun c => encodeNat c.toNat).flatten ++ rest
          = encodeChars cs ++ rest from rfl, ih]
    simp [Char.ofNat_toNat]

theorem decodeStr_encodeStr (s : Str) (rest : List Nat) :
    decodeStr (encodeStr s ++ rest) = some (s, rest) := by
  unfold encodeStr decodeStr
  rw [List.append_assoc, decodeNat_encodeNat]
  exact decodeChars_encodeChars s rest

theorem mem_encodeStr_lt (s : Str) : ∀ b ∈ encodeStr s, b < 256 := by
  unfold encodeStr encodeChars
  intro b hb
  rcases List.mem_append.mp hb with hb | hb
  · exact mem_encodeNat_lt _ b hb
  · rcases List.mem_flatten.mp hb with ⟨l, hl, hbl⟩
    rcases List.mem_map.mp hl with ⟨c, _, rfl⟩
    exact mem_encodeNat_lt _ b hbl

/-- Encoding of one `Episode` record: Title, Date, URL, Length in order. -/
def encodeEpisode (e : Episode) : List Nat :=
  encodeStr e.Title ++ encodeInt e.Date ++ encodeStr e.URL ++ encodeInt e.Length

/-- Decoder for `encodeEpisode`. -/
def decodeEpisode (l : List Nat) : Option (Episode × List Nat) :=
  match decodeStr l with
  | some (title, l1) =>
    match decodeInt l1 with
    | some (date, l2) =>
      match decodeStr l2 with
      | some (url, l3) =>
        match decodeInt l3 with
        | some (len, l4) => some (⟨title, date, url, len⟩, l4)
        | none => none
      | none => none
    | none => none
  | none => none

theorem decodeEpisode_encodeEpisode (e : Episode) (rest : List Nat) :
    decodeEpisode (encodeEpisode e ++ rest) = some (e, rest) := by
  unfold encodeEpisode decodeEpisode
  simp only [List.append_assoc, decodeStr_encodeStr, decodeInt_encodeInt]

theorem mem_encodeEpisode_lt (e : Episode) : ∀ b ∈ encodeEpisode e, b < 256 := by
  unfold encodeEpisode
  intro b hb
  simp only [List.mem_append] at hb
  rcases hb with ((hb | hb) | hb) | hb
  · exact mem_encodeStr_lt _ b hb
  · exact mem_encodeInt_lt _ b hb
  · exact mem_encodeStr_lt _ b hb
  · exact mem_encodeInt_lt _ b hb

/-- Count-prefixed encoding of the whole episode list; this is the model of
`gob.Encoder.Encode` applied to a `[]Episode` value. -/
def gobEncode (xs : List Episode) : List Nat :=
  encodeNat xs.length ++ (xs.map encodeEpisode).flatten

/-- Decoder reading exactly `n` episode records. -/
def decodeEpisodeList : Nat → List Nat → Option (List Episode × List Nat)
  | 0, l => some ([], l)
  | n + 1, l =>
    match decodeEpisode l with
    | some (e, l1) =>
      match decodeEpisodeList n l1 with
      | some (es, l2) => some (e :: es, l2)
      | none => none
    | none => none

/-- Model of `gob.Decoder.Decode` into a `[]Episode`: reads one value from the
stream; trailing bytes after that value are not an error. -/
def gobDecode (l : List Nat) : Option (List Episode) :=
  match decodeNat l with
  | some (n, l1) =>
    match decodeEpisodeList n l1 with
    | some (xs, _) => some xs
    | none => none
  | none => none

theorem decodeEpisodeList_encode (xs : List Episode) (rest : List Nat) :
    decodeEpisodeList xs.length ((xs.map encodeEpisode).flatten ++ rest) = some (xs, rest) := by
  induction xs with
  | nil => simp [decodeEpisodeList]
  | cons e es ih =>
    simp only [List.map_cons, List.flatten_cons, List.length_cons, List.append_assoc]
    simp only [decodeEpisodeList, decodeEpisode_encodeEpisode, ih]

theorem gobDecode_gobEncode (xs : List Episode) :
    gobDecode (gobEncode xs) = some xs := by
  unfold gobEncode gobDecode
  have h := decodeNat_encodeNat xs.length ((xs.map encodeEpisode).flatten)
  have h2 := decodeEpisodeList_encode xs []
  rw [List.append_nil] at h2
  simp only [h, h2]

theorem mem_gobEncode_lt (xs : List Episode) : ∀ b ∈ gobEncode xs, b < 256 := by
  unfold gobEncode
  intro b hb
  rcases List.mem_append.mp hb with hb | hb
  · exact mem_encodeNat_lt _ b hb
  · rcases List.mem_flatten.mp hb with ⟨l, hl, hbl⟩
    rcases List.mem_map.mp hl with ⟨e, _, rfl⟩
    exact mem_encodeEpisode_lt e b hbl

/-! Section: Model of `base64.StdEncoding` (RFC 4648 standard alphabet, padded) -/

/-- Character for one sextet of the standard base64 alphabet. -/
def b64Char (n : Nat) : Char :=
  if n < 26 then Char.ofNat (65 + n)
  else if n < 52 then Char.ofNat (97 + (n - 26))
  else if n < 62 then Char.ofNat (48 + (n - 52))
  else if n = 62 then '+'
  else '/'

/-- Inverse lookup in the standard base64 alphabet. -/
def b64Index (c : Char) : Option Nat :=
  if 'A' ≤ c ∧ c ≤ 'Z' then some (c.toNat - 65)
  else if 'a' ≤ c ∧ c ≤ 'z' then some (c.toNat - 97 + 26)
  else if '0' ≤ c ∧ c ≤ '9' then some (c.toNat - 48 + 52)
  else if c = '+' then some 62
  else if c = '/' then some 63
  else none

/-- Base64 encoding of a byte list, with `=` padding, as produced by
`base64.NewEncoder(base64.StdEncoding, ·)` followed by `Close`. -/
def base64Encode : List Nat → List Char
  | [] => []
  | [b1] =>
    [b64Char (b1 / 4), b64Char (b1 % 4 * 16), '=', '=']
  | [b1, b2] =>
    [b64Char (b1 / 4), b64Char (b1 % 4 * 16 + b2 / 16), b64Char (b2 % 16 * 4), '=']
  | b1 :: b2 :: b3 :: rest =>
    b64Char (b1 / 4) :: b64Char (b1 % 4 * 16 + b2 / 16) ::
      b64Char (b2 % 16 * 4 + b3 / 64) :: b64Char (b3 % 64) :: base64Encode rest

/-- Base64 decoding, as in `base64.NewDecoder(base64.StdEncoding, ·)`:
four characters at a time, `=` padding only in the final quantum, any
character outside the alphabet (or a truncated quantum) is an error. -/
def base64Decode : List Char → Option (List Nat)
  | [] => some []
  | c1 :: c2 :: c3 :: c4 :: rest =>
    (match b64Index c1, b64Index c2 with
    | some n1, some n2 =>
      if c3 = '=' then
        if c4 = '=' ∧ rest = [] then some [n1 * 4 + n2 / 16] else none
      else
        match b64Index c3 with
        | some n3 =>
          if c4 = '=' then
            if rest = [] then some [n1 * 4 + n2 / 16, n2 % 16 * 16 + n3 / 4] else none
          else
            match b64Index c4 with
            | some n4 =>
              match base64Decode rest with
              | some bs => some ((n1 * 4 + n2 / 16) :: (n2 % 16 * 16 + n3 / 4) ::
                  (n3 % 4 * 64 + n4) :: bs)
              | none => none
            | none => none
        | none => none
    | _, _ => none)
  | _ => none

theorem b64Index_b64Char_fin : ∀ n : Fin 64, b64Index (b64Char n.val) = some n.val := by
  decide

theorem b64Index_b64Char (n : Nat) (h : n < 64) : b64Index (b64Char n) = some n :=
  b64Index_b64Char_fin ⟨n, h⟩

theorem b64Char_ne_eq (n : Nat) (h : n < 64) : ¬ b64Char n = '=' := by
  intro he
  have := b64Index_b64Char n h
  rw [he] at this
  simp [b64Index] at this

theorem base64Decode_base64Encode (bs : List Nat) :
    (∀ b ∈ bs, b < 256) → base64Decode (base64Encode bs) = some bs := by
  induction bs using base64Encode.induct with
  | case1 =>
    intro _
    rfl
  | case2 b1 =>
    intro h
    have hb1 : b1 < 256 := h b1 (by simp)
    simp only [base64Encode, base64Decode,
      b64Index_b64Char (b1 / 4) (by omega),
      b64Index_b64Char (b1 % 4 * 16) (by omega)]
    simp
    omega
  | case3 b1 b2 =>
    intro h
    have hb1 : b1 < 256 := h b1 (by simp)
    have hb2 : b2 < 256 := h b2 (by simp)
    have hne3 : ¬ b64Char (b2 % 16 * 4) = '=' := b64Char_ne_eq _ (by omega)
    simp only [base64Encode, base64Decode,
      b64Index_b64Char (b1 / 4) (by omega),
      b64Index_b64Char (b1 % 4 * 16 + b2 / 16) (by omega),
      b64Index_b64Char (b2 % 16 * 4) (by omega)]
    rw [if_neg hne3]
    simp
    omega
  | case4 b1 b2 b3 rest ih =>
    intro h
    have hb1 : b1 < 256 := h b1 (by simp)
    have hb2 : b2 < 256 := h b2 (by simp)
    have hb3 : b3 < 256 := h b3 (by simp)
    have hrest : ∀ b ∈ rest, b < 256 := fun b hb => h b (by simp [hb])
    have hne3 : ¬ b64Char (b2 % 16 * 4 + b3 / 64) = '=' := b64Char_ne_eq _ (by omega)
    have hne4 : ¬ b64Char (b3 % 64) = '=' := b64Char_ne_eq _ (by omega)
    simp only [base64Encode, base64Decode,
      b64Index_b64Char (b1 / 4) (by omega),
      b64Index_b64Char (b1 % 4 * 16 + b2 / 16) (by omega),
      b64Index_b64Char (b2 % 16 * 4 + b3 / 64) (by omega),
      b64Index_b64Char (b3 % 64) (by omega)]
    rw [if_neg hne3]
    rw [if_neg hne4]
    simp only [ih hrest]
    simp
    omega

/-! Section: The cache codec of `pcd.go`: `toGOB64` and `fromGOB64` -/

/-- Model of `toGOB64`: gob-encode the episode list, then base64-encode the
resulting bytes. Returns `Option` to mirror the Go `(io.Reader, error)`
signature; gob encoding of a `[]Episode` value cannot fail, so the result is
always `some`. -/
def toGOB64 (episodes : List Episode) : Option Str :=
  some (base64Encode (gobEncode episodes))

/-- Model of `fromGOB64`: base64-decode the text, then gob-decode the bytes;
a failure of either stage is an error (`none`). -/
def fromGOB64 (content : Str) : Option (List Episode) :=
  match base64Decode content with
  | some bytes => gobDecode bytes
  | none => none

/-! Section: Episode extraction: `parseEpisodes` -/

/-- Model of one `rss.Item` as seen by `parseEpisodes`: a title string, a
date string (`item.Date.Date`), and an enclosure URL and length. -/
structure FeedItem where
  title : Str
  dateStr : Str
  enclosureURL : Str
  enclosureLength : Int
deriving Repr, DecidableEq

/-- Model of a parsed `rss.Feed`: the items of its single channel, in
document order. -/
structure Feed where
  items : List FeedItem
deriving Repr, DecidableEq

/-- Episode built from one feed item whose date parsed to `t`. -/
def episodeOfItem (item : FeedItem) (t : Int) : Episode :=
  { Title := item.title, Date := t, URL := item.enclosureURL,
    Length := item.enclosureLength }

/-- Model of the item loop of `parseEpisodes`: for each item in order, parse
its date with `time.Parse(rss.Layout, ·)` (the parameter `parseDate`); on
failure log and `continue`, on success append the episode. -/
def parseItems (parseDate : Str → Option Int) : List FeedItem → List Episode
  | [] => []
  | item :: rest =>
    match parseDate item.dateStr with
    | none => parseItems parseDate rest
    | some t => episodeOfItem item t :: parseItems parseDate rest

/-- Model of `parseEpisodes`: `rss.Parse` is external, so its outcome is the
argument (`none` models a parse error, mapped to `ErrCouldNotParseContent`);
on success the items are folded as in `parseItems`. -/
def parseEpisodes (parseDate : Str → Option Int) (parsed : Option Feed) :
    Option (List Episode) :=
  match parsed with
  | none => none
  | some feed => some (parseItems parseDate feed.items)

/-! Section: The `Sync` orchestrator

The environment collects the outcomes of all external effects that `Sync`
performs, in program order: `http.NewRequest` (may fail), `client.Do`
(transport error, or a response with a status code and a body whose
`rss.Parse` outcome is given directly), `os.MkdirAll`, `os.Create`, and the
final `io.Copy` to the cache file.
-/

/-- Model of an `http.Response` as consumed by `Sync`: the status code, and
the outcome of handing `resp.Body` to `rss.Parse` (`none` = parse error). -/
structure SyncResponse where
  status : Nat
  parsedBody : Option Feed
deriving Repr, DecidableEq

/-- Outcomes of the external effects of one `Sync` call, in program order. -/
structure SyncEnv where
  reqOk : Bool
  doResult : Option SyncResponse
  mkdirOk : Bool
  createOk : Bool
  writeOk : Bool
deriving Repr, DecidableEq

/-- Result of a `Sync` call: the final receiver state, the returned error,
and resource bookkeeping. `gotResponse` records whether `client.Do` returned
a response (so a body exists at all); `bodyClosed` records whether
`resp.Body.Close()` ran before returning; `written` is the blob written to
`<Path>/.feed` when the persistence step was reached and succeeded. -/
structure SyncResult where
  podcast : Podcast
  error : Option PcdError
  gotResponse : Bool
  bodyClosed : Bool
  authSent : Bool
  written : Option Str
deriving Repr, DecidableEq

/-- Model of `Podcast.Sync`, line by line. The `defer resp.Body.Close()` in
the source stands after the status-code switch, so the early returns of the
switch happen before the close is registered. On a parse failure the Go
multi-assignment `p.Episodes, err = parseEpisodes(resp.Body)` stores the
`nil` first return value into `Episodes` before the error check. -/
def Podcast.Sync (parseDate : Str → Option Int) (env : SyncEnv) (p : Podcast) :
    SyncResult :=
  if ¬ env.reqOk then
    -- http.NewRequest failed: return ErrCouldNotSync
    ⟨p, some .couldNotSync, false, false, false, none⟩
  else
    -- if p.Username != "" { req.SetBasicAuth(p.Username, p.Password) }
    let authSent := p.Username ≠ []
    match env.doResult with
    | none =>
      -- client.Do failed: return ErrRequestFailed
      ⟨p, some .requestFailed, false, false, authSent, none⟩
    | some resp =>
      -- switch resp.StatusCode — before `defer resp.Body.Close()`
      if resp.status = 200 then
        -- defer resp.Body.Close() is registered from here on
        match parseEpisodes parseDate resp.parsedBody with
        | none =>
          -- p.Episodes, err = parseEpisodes(...): Episodes receives nil
          ⟨{ p with Episodes := [] }, some .parserIssue, true, true, authSent, none⟩
        | some eps =>
          let p1 := { p with Episodes := eps }
          if ¬ env.mkdirOk then
            ⟨p1, some .filesystemError, true, true, authSent, none⟩
          else if ¬ env.createOk then
            ⟨p1, some .filesystemError, true, true, authSent, none⟩
          else
            match toGOB64 eps with
            | none => ⟨p1, some .encodeError, true, true, authSent, none⟩
            | some blob =>
              if ¬ env.writeOk then
                ⟨p1, some .filesystemError, true, true, authSent, none⟩
              else
                ⟨p1, none, true, true, authSent, some blob⟩
      else if resp.status = 403 ∨ resp.status = 401 then
        ⟨p, some .accessDenied, true, false, authSent, none⟩
      else if resp.status = 404 then
        ⟨p, some .feedNotFound, true, false, authSent, none⟩
      else if resp.status = 500 then
        ⟨p, some .requestFailed, true, false, authSent, none⟩
      else
        ⟨p, some .requestFailed, true, false, authSent, none⟩

/-! Section: `Load` and the `String` rendering -/

/-- Model of `Podcast.Load`: `fileContents` is the contents of
`<Path>/.feed` if `os.Open` succeeds, `none` if it fails. On a decode
failure the Go multi-assignment `p.Episodes, err = fromGOB64(f)` stores the
`nil` first return value into `Episodes` before the error check. -/
def Podcast.Load (fileContents : Option Str) (p : Podcast) :
    Podcast × Option PcdError :=
  match fileContents with
  | none => (p, some .couldNotReadFromCache)
  | some content =>
    match fromGOB64 content with
    | none => ({ p with Episodes := [] }, some .couldNotReadFromCache)
    | some eps => ({ p with Episodes := eps }, none)

/-- Display cap of the listing, `titleLength = 60` in the source. -/
def titleLength : Nat := 60

/-- Rendering of one episode title in `Podcast.String`: titles longer than
`titleLength` are cut to their first `titleLength - 4` bytes followed by
`"..."`. -/
def renderTitle (title : Str) : Str :=
  if title.length > titleLength then
    title.take (titleLength - 4) ++ ['.', '.', '.']
  else
    title

/-- The fold of `Podcast.String` that finds the longest episode title. -/
def longestTitle (episodes : List Episode) : Nat :=
  episodes.foldl (fun tl e => if e.Title.length > tl then e.Title.length else tl) 0

/-- Width of the title column in `Podcast.String`: the longest actual title
length, capped at `titleLength`. -/
def columnWidth (episodes : List Episode) : Nat :=
  let tl := longestTitle episodes
  if tl > titleLength then titleLength else tl

/-! Section: The episode downloader -/

/-- Model of `strings.Split(s, "/")`: split at every slash; the result is
always non-empty. -/
def splitOnSlash : Str → List Str
  | [] => [[]]
  | c :: rest =>
    match splitOnSlash rest with
    | [] => [[]]
    | grp :: groups =>
      if c = '/' then [] :: grp :: groups else (c :: grp) :: groups

/-- Destination filename derived by `Download`: the final path segment of
the media URL (`tokens[len(tokens)-1]`). -/
def downloadFilename (url : Str) : Str :=
  (splitOnSlash url).getLastD []

/-- Outcomes of the external effects of one `Download` call, in program
order: `http.Get` (transport error, or a status code and a body byte
stream), `os.Create`, and the `io.Copy`; `copiedSoFar` is the prefix of
the body that a failing copy got through before erroring. -/
structure DownloadEnv where
  response : Option (Nat × List Nat)
  createOk : Bool
  writeOk : Bool
  copiedSoFar : List Nat
deriving Repr, DecidableEq

/-- Result of a `Download` call: the created file (name and bytes written),
the bytes the optional progress writer observed (`none` when no writer was
supplied), the returned error, and resource bookkeeping. -/
structure DownloadResult where
  file : Option (Str × List Nat)
  observed : Option (List Nat)
  error : Option PcdError
  gotResponse : Bool
  bodyClosed : Bool
deriving Repr, DecidableEq

/-- Model of `Episode.Download`, line by line. `defer res.Body.Close()` is
registered right after the `http.Get` error check, so every later exit
closes the body. With a progress writer, `io.MultiWriter(f, writer)` hands
every chunk to both sinks, so the writer observes exactly the bytes that
reach the file. -/
def Episode.Download (env : DownloadEnv) (e : Episode) (hasWriter : Bool) :
    DownloadResult :=
  match env.response with
  | none =>
    -- http.Get failed: return ErrCouldNotDownload; no body exists
    ⟨none, none, some .couldNotDownload, false, false⟩
  | some (status, body) =>
    -- defer res.Body.Close() is registered from here on
    if status ≠ 200 then
      ⟨none, none, some .couldNotDownload, true, true⟩
    else
      let filename := downloadFilename e.URL
      if ¬ env.createOk then
        ⟨none, none, some .couldNotDownload, true, true⟩
      else if ¬ env.writeOk then
        ⟨some (filename, env.copiedSoFar),
          (if hasWriter then some env.copiedSoFar else none),
          some .couldNotDownload, true, true⟩
      else
        ⟨some (filename, body), (if hasWriter then some body else none),
          none, true, true⟩

/-! Section: Claim theorems -/

theorem parseItems_eq_filterMap (parseDate : Str → Option Int)
    (items : List FeedItem) :
    parseItems parseDate items =
      items.filterMap (fun item => (parseDate item.dateStr).map (episodeOfItem item)) := by
  induction items with
  | nil => rfl
  | cons item rest ih =>
    rw [parseItems, List.filterMap_cons]
    cases h : parseDate item.dateStr with
    | none => simp [h, ih]
    | some t => simp [h, ih, Option.map_some]

theorem length_parseItems (parseDate : Str → Option Int) (items : List FeedItem) :
    (parseItems parseDate items).length =
      items.length - items.countP (fun item => (parseDate item.dateStr).isNone) := by
  induction items with
  | nil => rfl
  | cons item rest ih =>
    have hc : rest.countP (fun item => (parseDate item.dateStr).isNone) ≤ rest.length :=
      List.countP_le_length _
    rw [parseItems, List.countP_cons]
    cases h : parseDate item.dateStr with
    | none => simp [h, ih]
    | some t => simp [h, ih]; omega

/-- C2: for every ordered sequence of Episodes `xs`, including the empty
sequence, decoding the encoding of `xs` succeeds and yields a sequence equal
to `xs` field-for-field: `fromGOB64 (toGOB64 xs) = some xs`. -/
theorem claim_C2_roundtrip (xs : List Episode) :
    (toGOB64 xs).bind fromGOB64 = some xs := by
  show fromGOB64 (base64Encode (gobEncode xs)) = some xs
  unfold fromGOB64
  simp only [base64Decode_base64Encode (gobEncode xs) (mem_gobEncode_lt xs)]
  exact gobDecode_gobEncode xs

/-- C4: for every parsed feed document, extraction succeeds (a date-parse
failure never aborts the whole extraction) and returns exactly the episodes
built from the items whose dates parse, as an order-preserving filter-map
with no placeholder entries; its length is `N - K` where `N` is the number
of items and `K` the number of items whose date fails to parse. -/
theorem claim_C4_extraction (parseDate : Str → Option Int) (feed : Feed) :
    parseEpisodes parseDate (some feed) =
      some (feed.items.filterMap
        (fun item => (parseDate item.dateStr).map (episodeOfItem item))) ∧
    (parseItems parseDate feed.items).length =
      feed.items.length -
        feed.items.countP (fun item => (parseDate item.dateStr).isNone) := by
  refine ⟨?_, length_parseItems parseDate feed.items⟩
  show some (parseItems parseDate feed.items) = _
  rw [parseItems_eq_filterMap]

/-- C6: for every Podcast whose path holds no cache file (`os.Open` fails),
`Load` returns the cache-unavailable error and leaves the whole in-memory
receiver, `Episodes` included, exactly as it was. -/
theorem claim_C6_load_missing_cache (p : Podcast) :
    Podcast.Load none p = (p, some PcdError.couldNotReadFromCache) := rfl

/-- C10: for every Podcast whose cache file opens but fails to decode,
`Load` returns the cache-unavailable error and sets `Episodes` to the empty
(nil) sequence, discarding any prior value — the decode-failure assignment
happens before the error check. -/
theorem claim_C10_load_decode_failure (p : Podcast) (content : Str)
    (h : fromGOB64 content = none) :
    Podcast.Load (some content) p =
      ({ p with Episodes := [] }, some PcdError.couldNotReadFromCache) := by
  unfold Podcast.Load
  simp only [h]

/-- Concrete podcast with one in-memory episode, used as a witness input. -/
def pPrior : Podcast :=
  { ID := 1, Name := ['p'], Feed := ['f'], Path := ['d'],
    Username := [], Password := [],
    Episodes := [{ Title := ['o','l','d'], Date := 3, URL := ['u'], Length := 9 }] }

/-- Witness for C10: a concrete blob (`"!"`, not valid base64) fails to
decode, and `Load` on a podcast with a prior episode empties `Episodes` and
reports the cache-unavailable error. -/
theorem claim_C10_witness :
    Podcast.Load (some ['!']) pPrior =
      ({ pPrior with Episodes := [] }, some PcdError.couldNotReadFromCache) :=
  claim_C10_load_decode_failure pPrior ['!'] (by decide)

theorem longestTitle_eq_foldl_max (episodes : List Episode) :
    longestTitle episodes = (episodes.map (fun e => e.Title.length)).foldl max 0 := by
  unfold longestTitle
  rw [List.foldl_map]
  congr 1
  funext tl e
  split <;> omega

theorem longestTitle_foldl_lt (episodes : List Episode) :
    ∀ acc, acc < titleLength → (∀ e ∈ episodes, e.Title.length < titleLength) →
      episodes.foldl
        (fun tl e => if e.Title.length > tl then e.Title.length else tl) acc
        < titleLength := by
  induction episodes with
  | nil =>
    intro acc hacc _
    simpa using hacc
  | cons e es ih =>
    intro acc hacc hall
    rw [List.foldl_cons]
    apply ih
    · have he := hall e (by simp)
      split <;> omega
    · intro x hx
      exact hall x (by simp [hx])

/-- Counterexample to C5 as stated: a title of 61 characters is longer than
the display cap 60, yet its rendering has length 59, not 60 — the source
truncates to `titleLength - 4` characters and appends a three-character
ellipsis. -/
theorem claim_C5_counterexample :
    (List.replicate 61 'a').length > titleLength ∧
    ¬ (renderTitle (List.replicate 61 'a')).length = titleLength := by
  decide

/-- C5 as amended: a title longer than the cap is rendered as its first
`titleLength - 4` characters followed by `"..."`, so the rendering ends in
the ellipsis marker and has length `titleLength - 1` (59), one less than
the cap; and when every title is shorter than the cap, the title column
width is the length of the longest actual title. -/
theorem claim_C5_rendering :
    (∀ title : Str, title.length > titleLength →
      renderTitle title = title.take (titleLength - 4) ++ ['.', '.', '.'] ∧
      (renderTitle title).length = titleLength - 1 ∧
      ['.', '.', '.'] <:+ renderTitle title) ∧
    (∀ episodes : List Episode,
      (∀ e ∈ episodes, e.Title.length < titleLength) →
      columnWidth episodes = (episodes.map (fun e => e.Title.length)).foldl max 0) := by
  constructor
  · intro title hlong
    have hrt : renderTitle title = title.take (titleLength - 4) ++ ['.', '.', '.'] := by
      unfold renderTitle
      rw [if_pos hlong]
    refine ⟨hrt, ?_, ?_⟩
    · rw [hrt]
      simp only [List.length_append, List.length_take, List.length_cons,
        List.length_nil, titleLength]
      simp only [titleLength] at hlong
      omega
    · rw [hrt]
      exact List.suffix_append _ _
  · intro episodes hall
    have hlt : longestTitle episodes < titleLength :=
      longestTitle_foldl_lt episodes 0 (by unfold titleLength; omega) hall
    unfold columnWidth
    rw [if_neg (by omega), longestTitle_eq_foldl_max]

/-- Witness for C5 as amended: a 61-character title renders with length 59
ending in `"..."`, and a two-episode list with titles of lengths 3 and 5
gets column width 5. -/
theorem claim_C5_witness :
    renderTitle (List.replicate 61 'a')
        = List.replicate 56 'a' ++ ['.', '.', '.'] ∧
    (renderTitle (List.replicate 61 'a')).length = titleLength - 1 ∧
    ['.', '.', '.'] <:+ renderTitle (List.replicate 61 'a') ∧
    columnWidth
        [{ Title := ['a','b','c'], Date := 0, URL := [], Length := 0 },
         { Title := ['d','e','f','g','h'], Date := 0, URL := [], Length := 0 }] = 5 := by
  have h1 := claim_C5_rendering.1 (List.replicate 61 'a') (by decide)
  have h2 := claim_C5_rendering.2
    [{ Title := ['a','b','c'], Date := 0, URL := [], Length := 0 },
     { Title := ['d','e','f','g','h'], Date := 0, URL := [], Length := 0 }]
    (by decide)
  refine ⟨?_, h1.2.1, h1.2.2, ?_⟩
  · rw [h1.1]
    decide
  · rw [h2]
    decide

/-- C8: whenever the media URL fetch returns status 200 (and the filesystem
cooperates), `Download` creates a file named after the final path segment of
the media URL whose contents equal the response body exactly, returns no
error, and a supplied progress observer receives exactly the byte sequence
written to the file. -/
theorem claim_C8_download (env : DownloadEnv) (e : Episode) (hasWriter : Bool)
    (body : List Nat)
    (hresp : env.response = some (200, body))
    (hcreate : env.createOk = true)
    (hwrite : env.writeOk = true) :
    (e.Download env hasWriter).file = some (downloadFilename e.URL, body) ∧
    (e.Download env hasWriter).observed
      = (if hasWriter then some body else none) ∧
    (e.Download env hasWriter).error = none := by
  obtain ⟨resp, cr, wr, pb⟩ := env
  simp only at hresp hcreate hwrite
  subst hresp
  subst hcreate
  subst hwrite
  unfold Episode.Download
  simp

/-- Witness for C8: with a 200 response whose body is `[7, 8, 9]` and a URL
ending in `/episode123.mp3`, the file is named `episode123.mp3`, holds
exactly `[7, 8, 9]`, and a supplied observer sees the same bytes. -/
theorem claim_C8_witness :
    (Episode.Download
        ⟨some (200, [7, 8, 9]), true, true, []⟩
        { Title := [], Date := 0, URL := "http://h/episode123.mp3".toList,
          Length := 0 }
        true).file
      = some ("episode123.mp3".toList, [7, 8, 9]) ∧
    (Episode.Download
        ⟨some (200, [7, 8, 9]), true, true, []⟩
        { Title := [], Date := 0, URL := "http://h/episode123.mp3".toList,
          Length := 0 }
        true).observed = some [7, 8, 9] := by
  have h := claim_C8_download
    ⟨some (200, [7, 8, 9]), true, true, []⟩
    { Title := [], Date := 0, URL := "http://h/episode123.mp3".toList,
      Length := 0 }
    true [7, 8, 9] rfl rfl rfl
  refine ⟨?_, ?_⟩
  · rw [h.1]
    decide
  · rw [h.2.1]
    decide

theorem sync_authSent_eq (pd : Str → Option Int) (env : SyncEnv) (p : Podcast)
    (hreq : env.reqOk = true) :
    (Podcast.Sync pd env p).authSent = decide (p.Username ≠ []) := by
  obtain ⟨reqOk, doRes, mk, cr, wr⟩ := env
  simp only at hreq
  subst hreq
  cases doRes with
  | none => rfl
  | some resp =>
    obtain ⟨status, body⟩ := resp
    unfold Podcast.Sync
    by_cases h200 : status = 200
    · subst h200
      simp only [if_pos rfl]
      cases hb : parseEpisodes pd body with
      | none => simp [hb]
      | some eps =>
        simp only [hb]
        by_cases hmk : mk <;> by_cases hcr : cr <;> by_cases hwr : wr <;>
          simp [hmk, hcr, hwr, toGOB64]
    · by_cases h43 : status = 403 ∨ status = 401
      · simp [h200, h43]
      · by_cases h404 : status = 404
        · simp [h200, h43, h404]
        · by_cases h500 : status = 500 <;> simp [h200, h43, h404, h500]

/-- C3 (confirmed): once a response arrives, the status classification of
`Sync` is total and exact — 401/403 yield access-denied, 404 yields
feed-not-found, every other non-200 status (500 included) yields
request-failed, a transport error yields request-failed, and status 200
proceeds to the body (any error from then on is a post-fetch error:
parser-issue, filesystem-error, or none at all). -/
theorem claim_C3_status_classification (pd : Str → Option Int) (env : SyncEnv)
    (p : Podcast) (hreq : env.reqOk = true) :
    (env.doResult = none →
      (Podcast.Sync pd env p).error = some PcdError.requestFailed) ∧
    (∀ resp, env.doResult = some resp →
      ((resp.status = 401 ∨ resp.status = 403) →
        (Podcast.Sync pd env p).error = some PcdError.accessDenied) ∧
      (resp.status = 404 →
        (Podcast.Sync pd env p).error = some PcdError.feedNotFound) ∧
      (resp.status ≠ 200 → resp.status ≠ 401 → resp.status ≠ 403 →
        resp.status ≠ 404 →
        (Podcast.Sync pd env p).error = some PcdError.requestFailed) ∧
      (resp.status = 200 →
        (Podcast.Sync pd env p).error = none ∨
        (Podcast.Sync pd env p).error = some PcdError.parserIssue ∨
        (Podcast.Sync pd env p).error = some PcdError.filesystemError)) := by
  obtain ⟨reqOk, doRes, mk, cr, wr⟩ := env
  simp only at hreq
  subst hreq
  constructor
  · intro h
    subst h
    rfl
  · intro resp hresp
    subst hresp
    obtain ⟨status, body⟩ := resp
    refine ⟨?_, ?_, ?_, ?_⟩
    · rintro (h | h) <;> subst h <;> rfl
    · rintro h
      subst h
      rfl
    · intro h200 h401 h403 h404
      unfold Podcast.Sync
      by_cases h500 : status = 500 <;>
        simp [h200, h401, h403, h404, h500]
    · rintro h
      subst h
      unfold Podcast.Sync
      simp only [if_pos rfl]
      cases hb : parseEpisodes pd body with
      | none => simp [hb]
      | some eps =>
        simp only [hb]
        by_cases hmk : mk <;> by_cases hcr : cr <;> by_cases hwr : wr <;>
          simp [hmk, hcr, hwr, toGOB64]

/-- Witness for C3: a concrete 404 response yields the feed-not-found
error. -/
theorem claim_C3_witness :
    (Podcast.Sync (fun _ => none)
        ⟨true, some ⟨404, none⟩, true, true, true⟩ pPrior).error
      = some PcdError.feedNotFound :=
  ((claim_C3_status_classification (fun _ => none)
      ⟨true, some ⟨404, none⟩, true, true, true⟩ pPrior rfl).2
    ⟨404, none⟩ rfl).2.1 rfl

/-- Counterexample to C1 as stated: a feed parse failure is an error that
arises before extraction succeeded, yet it does not leave `Episodes` as it
was — the multi-assignment `p.Episodes, err = parseEpisodes(resp.Body)`
stores the `nil` first return value before the error check, so a podcast
with one prior episode ends the call with empty `Episodes`. -/
theorem claim_C1_counterexample :
    (Podcast.Sync (fun _ => none)
        ⟨true, some ⟨200, none⟩, true, true, true⟩ pPrior).error
      = some PcdError.parserIssue ∧
    ¬ ((Podcast.Sync (fun _ => none)
        ⟨true, some ⟨200, none⟩, true, true, true⟩ pPrior).podcast.Episodes
      = pPrior.Episodes) := by
  decide

/-- C1 as amended: on a request-construction failure, a transport error, or
a non-200 status, the whole receiver (and so `Episodes`) is left exactly as
it was; on a feed parse failure `Episodes` is replaced by the empty (nil)
sequence; and once extraction succeeds `Episodes` is replaced with the
extracted sequence even if mkdir, create, or the write fail afterwards. -/
theorem claim_C1_sync_state (pd : Str → Option Int) (env : SyncEnv)
    (p : Podcast) :
    (env.reqOk = false → (Podcast.Sync pd env p).podcast = p) ∧
    (env.doResult = none → (Podcast.Sync pd env p).podcast = p) ∧
    (∀ resp, env.doResult = some resp → resp.status ≠ 200 →
      (Podcast.Sync pd env p).podcast = p) ∧
    (∀ resp, env.reqOk = true → env.doResult = some resp →
      resp.status = 200 → resp.parsedBody = none →
      (Podcast.Sync pd env p).podcast.Episodes = []) ∧
    (∀ resp feed, env.reqOk = true → env.doResult = some resp →
      resp.status = 200 → resp.parsedBody = some feed →
      (Podcast.Sync pd env p).podcast.Episodes = parseItems pd feed.items) := by
  obtain ⟨reqOk, doRes, mk, cr, wr⟩ := env
  cases reqOk with
  | false =>
    refine ⟨fun _ => rfl, fun _ => rfl, fun _ _ _ => rfl, ?_, ?_⟩
    · intro resp h1
      exact absurd h1 (by simp)
    · intro resp feed h1
      exact absurd h1 (by simp)
  | true =>
    refine ⟨?_, ?_, ?_, ?_, ?_⟩
    · intro h
      exact absurd h (by simp)
    · intro h
      simp only at h
      subst h
      rfl
    · intro resp h hne
      simp only at h
      subst h
      obtain ⟨status, body⟩ := resp
      simp only at hne
      unfold Podcast.Sync
      by_cases h43 : status = 403 ∨ status = 401 <;>
        by_cases h404 : status = 404 <;>
        by_cases h500 : status = 500 <;>
        simp [hne, h43, h404, h500]
    · intro resp h1 h2 h3 h4
      simp only at h2 h3 h4
      subst h2
      obtain ⟨status, body⟩ := resp
      simp only at h3 h4
      subst h3
      subst h4
      rfl
    · intro resp feed h1 h2 h3 h4
      simp only at h2 h3 h4
      subst h2
      obtain ⟨status, body⟩ := resp
      simp only at h3 h4
      subst h3
      subst h4
      unfold Podcast.Sync
      simp only [if_pos rfl]
      show (if ¬ mk = true then _ else _ : SyncResult).podcast.Episodes = _
      by_cases hmk : mk <;> by_cases hcr : cr <;> by_cases hwr : wr <;>
        simp [hmk, hcr, hwr, toGOB64]

/-- Witness for C1 as amended: with a successful fetch and parse but a
failing cache write, `Episodes` is still replaced with the extracted
sequence. -/
theorem claim_C1_witness :
    (Podcast.Sync
        (fun s => if s = ['d'] then some 5 else none)
        ⟨true, some ⟨200, some ⟨[⟨['t'], ['d'], ['u'], 2⟩]⟩⟩, true, true, false⟩
        pPrior).podcast.Episodes
      = parseItems (fun s => if s = ['d'] then some 5 else none)
          [⟨['t'], ['d'], ['u'], 2⟩] :=
  (claim_C1_sync_state
      (fun s => if s = ['d'] then some 5 else none)
      ⟨true, some ⟨200, some ⟨[⟨['t'], ['d'], ['u'], 2⟩]⟩⟩, true, true, false⟩
      pPrior).2.2.2.2
    ⟨200, some ⟨[⟨['t'], ['d'], ['u'], 2⟩]⟩⟩ ⟨[⟨['t'], ['d'], ['u'], 2⟩]⟩
    rfl rfl rfl rfl

/-- Counterexample to C9 as stated: the source guards `SetBasicAuth` with
`p.Username != ""` alone, so a podcast with an empty username but a
non-empty password has non-empty credentials and still sends no
Authentication header. -/
theorem claim_C9_counterexample :
    (Podcast.Sync (fun _ => none)
        ⟨true, some ⟨404, none⟩, true, true, true⟩
        { pPrior with Username := [], Password := ['s'] }).authSent = false ∧
    ¬ ({ pPrior with Username := [], Password := ['s'] }.Username = [] ∧
       { pPrior with Username := [], Password := ['s'] }.Password = []) := by
  decide

/-- C9 as amended: once the request is built, `Sync` sends the HTTP Basic
Authentication header if and only if the username is non-empty — the
password plays no part in the decision. -/
theorem claim_C9_auth (pd : Str → Option Int) (env : SyncEnv) (p : Podcast)
    (hreq : env.reqOk = true) :
    ((Podcast.Sync pd env p).authSent = true ↔ p.Username ≠ []) := by
  rw [sync_authSent_eq pd env p hreq]
  simp

/-- Witness for C9 as amended: a podcast with username `"u"` sends the
header. -/
theorem claim_C9_witness :
    (Podcast.Sync (fun _ => none)
        ⟨true, some ⟨404, none⟩, true, true, true⟩
        { pPrior with Username := ['u'] }).authSent = true :=
  (claim_C9_auth (fun _ => none)
      ⟨true, some ⟨404, none⟩, true, true, true⟩
      { pPrior with Username := ['u'] } rfl).mpr (by decide)

/-- C7 is a code bug: `defer resp.Body.Close()` stands after the
status-code switch, so the early returns for 401, 404, and 500 (and every
other non-200 status) leave the response body unclosed, while the paths
past the switch — parse failure included — do close it. This theorem
evaluates the model at those inputs. -/
theorem claim_C7_body_leak :
    ((Podcast.Sync (fun _ => none)
        ⟨true, some ⟨404, none⟩, true, true, true⟩ pPrior).gotResponse = true ∧
     (Podcast.Sync (fun _ => none)
        ⟨true, some ⟨404, none⟩, true, true, true⟩ pPrior).bodyClosed = false) ∧
    ((Podcast.Sync (fun _ => none)
        ⟨true, some ⟨401, none⟩, true, true, true⟩ pPrior).gotResponse = true ∧
     (Podcast.Sync (fun _ => none)
        ⟨true, some ⟨401, none⟩, true, true, true⟩ pPrior).bodyClosed = false) ∧
    ((Podcast.Sync (fun _ => none)
        ⟨true, some ⟨500, none⟩, true, true, true⟩ pPrior).gotResponse = true ∧
     (Podcast.Sync (fun _ => none)
        ⟨true, some ⟨500, none⟩, true, true, true⟩ pPrior).bodyClosed = false) ∧
    ((Podcast.Sync (fun _ => none)
        ⟨true, some ⟨200, none⟩, true, true, true⟩ pPrior).gotResponse = true ∧
     (Podcast.Sync (fun _ => none)
        ⟨true, some ⟨200, none⟩, true, true, true⟩ pPrior).bodyClosed = true) := by
  decide
